import Mathlib

/-
Verification of gdrive_videoloader.py against its natural-language
specification.

The Python source is shallowly embedded below.  Strings are Lean `String`s
(logically `List Char`); the handful of standard-library routines the script
relies on (`urllib.parse.unquote`, `urllib.parse.urlparse`,
`urllib.parse.parse_qs`, `str.split`, `str.strip`, `os.path.splitext`,
`re.match`/`re.search` on the two fixed patterns) are modelled explicitly,
each with a comment describing the modelled semantics.  Network and file
effects of `download_file` and `main` are modelled by passing the observable
environment (existing file contents, the HTTP response) as data and
returning the observable trace (headers sent, file contents afterwards,
console output).
-/

/-! ## Basic character and list utilities -/

/-- Python `str.split(sep)` for a single-character separator: splits on every
occurrence, keeping empty pieces; the empty string yields `[[]]`. -/
def splitOnChar (sep : Char) : List Char → List (List Char)
  | [] => [[]]
  | c :: rest =>
    let r := splitOnChar sep rest
    if c == sep then [] :: r
    else
      match r with
      | [] => [[c]]
      | x :: xs => (c :: x) :: xs

/-- String wrapper for `splitOnChar`. -/
def pySplit (sep : Char) (s : String) : List String :=
  (splitOnChar sep s.toList).map String.mk

/-- Test whether `pat` is an initial segment of the second list. -/
def startsWithList : List Char → List Char → Bool
  | [], _ => true
  | _ :: _, [] => false
  | p :: ps, c :: cs => p == c && startsWithList ps cs

/-- Python `pat in s` substring test: `pat` occurs contiguously somewhere. -/
def containsSeq (pat : List Char) : List Char → Bool
  | [] => startsWithList pat []
  | c :: cs => startsWithList pat (c :: cs) || containsSeq pat cs

/-- Python `s.startswith(pat)`. -/
def strStartsWith (s pat : String) : Bool :=
  startsWithList pat.toList s.toList

/-- Python `pat in s` on strings. -/
def strContainsSub (s pat : String) : Bool :=
  containsSeq pat.toList s.toList

/-- Numeric value of a hexadecimal digit, if any. -/
def hexVal (c : Char) : Option Nat :=
  if '0' ≤ c ∧ c ≤ '9' then some (c.toNat - '0'.toNat)
  else if 'a' ≤ c ∧ c ≤ 'f' then some (c.toNat - 'a'.toNat + 10)
  else if 'A' ≤ c ∧ c ≤ 'F' then some (c.toNat - 'A'.toNat + 10)
  else none

/-- Percent-decoding of `urllib.parse.unquote`: every `%XY` with two hex
digits becomes the character with code `16*X + Y`; malformed escapes are left
verbatim; `+` is NOT touched by `unquote`.  (Multi-byte UTF-8 percent
sequences are decoded bytewise here; every input appearing in the claims is
ASCII, where this coincides with Python.) -/
def unquoteList : List Char → List Char
  | '%' :: h1 :: h2 :: rest =>
    (match hexVal h1, hexVal h2 with
     | some a, some b => Char.ofNat (16 * a + b) :: unquoteList rest
     | _, _ => '%' :: unquoteList (h1 :: h2 :: rest))
  | c :: rest => c :: unquoteList rest
  | [] => []

/-- String wrapper for `unquoteList`. -/
def unquote (s : String) : String :=
  String.mk (unquoteList s.toList)

/-- Python `s.split(sep)[-1]` for a single-character separator: the part of
`s` after the last occurrence of `sep` (all of `s` when absent). -/
def afterLastSplit (sep : Char) (s : String) : String :=
  (pySplit sep s).getLastD s

/-- Characters Python `str.strip()` removes: `\t\n\v\f\r`, `\x1c`-`\x1f`,
space, and the Unicode space characters recognised by `str.isspace`. -/
def isPySpace (c : Char) : Bool :=
  let n := c.toNat
  (9 ≤ n && n ≤ 13) || (28 ≤ n && n ≤ 32) || n == 0x85 || n == 0xa0 ||
  n == 0x1680 || (0x2000 ≤ n && n ≤ 0x200a) || n == 0x2028 || n == 0x2029 ||
  n == 0x202f || n == 0x205f || n == 0x3000

/-- Python `str.strip()`: drop leading and trailing whitespace. -/
def pyStripList (l : List Char) : List Char :=
  ((l.dropWhile isPySpace).reverse.dropWhile isPySpace).reverse

/-- String wrapper for `pyStripList`. -/
def pyStrip (s : String) : String :=
  String.mk (pyStripList s.toList)

/-! ## Playback-Info Parser (`get_video_url`) -/

/-- Python truthiness of an optional string: `None` and `""` are falsy. -/
def isFalsy (o : Option String) : Bool :=
  o.getD "" == ""

/-- Result of `get_video_url`: the `(video, title)` pair. -/
structure PlaybackInfo where
  video : Option String
  title : Option String
deriving DecidableEq

/-- Loop body of `get_video_url`: `if content.startswith('title=') and not
title: title = unquote(content.split('=')[-1]); elif "videoplayback" in
content and not video: video = unquote(content).split("|")[-1]`. -/
def parseStep (st : PlaybackInfo) (content : String) : PlaybackInfo :=
  if strStartsWith content "title=" && isFalsy st.title then
    { st with title := some (unquote (afterLastSplit '=' content)) }
  else if strContainsSub content "videoplayback" && isFalsy st.video then
    { st with video := some (afterLastSplit '|' (unquote content)) }
  else st

/-- The `for content in contentList` loop, including the early `break` taken
once both fields are truthy. -/
def parseLoop : PlaybackInfo → List String → PlaybackInfo
  | st, [] => st
  | st, c :: rest =>
    if !isFalsy (parseStep st c).video && !isFalsy (parseStep st c).title then
      parseStep st c
    else parseLoop (parseStep st c) rest

/-- Embedding of `get_video_url` (the `verbose` prints are pure logging and
are omitted). -/
def get_video_url (page_content : String) : PlaybackInfo :=
  parseLoop ⟨none, none⟩ (pySplit '&' page_content)

/-- Modelled from the amended C2 claim's words, for the refinement theorem:
scan the `&`-segments left to right, tracking whether a nonempty title has
been captured.  A segment starting with `title=` while no nonempty title
exists is consumed by the title rule (a nonempty title is captured exactly
when its decoded after-last-`=` part is nonempty), even if it contains
`videoplayback`; otherwise the first segment containing `videoplayback`
whose decoded after-last-`|` part is nonempty determines the media URL;
empty extracted values count as unset and scanning continues. -/
def firstVideoUrl : Bool → List String → Option String
  | _, [] => none
  | titleSet, c :: rest =>
    if strStartsWith c "title=" && !titleSet then
      firstVideoUrl (unquote (afterLastSplit '=' c) != "") rest
    else if strContainsSub c "videoplayback" &&
        (afterLastSplit '|' (unquote c) != "") then
      some (afterLastSplit '|' (unquote c))
    else firstVideoUrl titleSet rest

/-! ## Filename Sanitizer (`sanitize_filename`) -/

/-- The character class removed by `re.sub(r'[<>:"/\\|?*]', '', filename)`. -/
def invalidChar (c : Char) : Bool :=
  c == '<' || c == '>' || c == ':' || c == '"' || c == '/' || c == '\\' ||
  c == '|' || c == '?' || c == '*'

/-- The cleanup stage of `sanitize_filename`, before the extension check:
replace `+` by a space, drop the invalid characters, drop control characters
(code point below 32), then `strip()`. -/
def sanitize_clean (filename : String) : String :=
  let f1 := filename.toList.map (fun c => if c == '+' then ' ' else c)
  let f2 := f1.filter (fun c => !invalidChar c)
  let f3 := f2.filter (fun c => 32 ≤ c.toNat)
  String.mk (pyStripList f3)

/-- Whether `os.path.splitext(s)[1]` is nonempty (posix rules).  The
extension starts at the last `.`, provided that dot lies in the final path
segment (after the last `/`) and some non-dot character of that segment
precedes it.  Equivalently: the final segment, with its leading dots
removed, still contains a `.`. -/
def hasExtension (s : String) : Bool :=
  let seg := (s.toList.reverse.takeWhile (fun c => c != '/')).reverse
  (seg.dropWhile (fun c => c == '.')).contains '.'

/-- Embedding of `sanitize_filename`. -/
def sanitize_filename (filename : String) : String :=
  let s := sanitize_clean filename
  if hasExtension s then s else s ++ ".mp4"

/-- Modelled from the claim wording of C6 (spec section 4.4): replace `+`
with space, remove exactly the characters from the listed class together
with code points below 32 and no others, and trim surrounding whitespace —
written as one map, one filter and one trim, to be compared with the code's
staged pipeline. -/
def sanitizeSpecClean (filename : String) : String :=
  String.mk (pyStripList
    ((filename.toList.map (fun c => if c == '+' then ' ' else c)).filter
      (fun c => !invalidChar c && 32 ≤ c.toNat)))

/-- Characters that can survive the cleanup stage: not `+`, not in the
removed class, not a control character. -/
def cleanChar (c : Char) : Bool :=
  !(c == '+') && !invalidChar c && 32 ≤ c.toNat

/-! ## Identifier Extractor (`extract_video_id`) -/

/-- Mode the local file is opened with: `wb` truncates, `ab` appends. -/
inductive FileMode where
  | wb
  | ab
deriving DecidableEq

/-- Observable data of the media-GET response: status code, the
`content-length` header (0 when absent, as `int(resp.headers.get(...,0))`),
and the chunk sequence produced by `iter_content` (chunks are byte lists;
the caller's chunk size determines their granularity and is not otherwise
observable). -/
structure HttpResponse where
  status : Nat
  contentLength : Nat
  chunks : List (List Nat)
deriving DecidableEq

/-- Observable trace of one `download_file` call: the Range header sent (if
any), the mode the file would be opened with, the file contents after the
call (`none` = still no file), the console output, and the progress-bar
total when one was created. -/
structure DownloadTrace where
  rangeHeader : Option String
  mode : FileMode
  fileAfter : Option (List Nat)
  output : List String
  totalSize : Option Nat
deriving DecidableEq

/-- Embedding of `download_file`.  `existing` is the local file before the
call (`none` when `os.path.exists` is false).  The function reads the
file's size at entry; when the file exists it sends `Range: bytes=<size>-`
and opens in append mode, otherwise no Range header and truncating mode.
On a 200/206 status every non-empty chunk is appended; on any other status
the file is never opened and an error line naming the status is printed. -/
def download_file (existing : Option (List Nat)) (resp : HttpResponse)
    (filename : String) (chunk_size : Nat) : DownloadTrace :=
  let downloaded_size := (existing.getD []).length
  let rangeHeader :=
    if existing.isSome then some ("bytes=" ++ toString downloaded_size ++ "-")
    else none
  let mode := if existing.isSome then FileMode.ab else FileMode.wb
  let _ := chunk_size
  if resp.status == 200 || resp.status == 206 then
    let total_size := resp.contentLength + downloaded_size
    let base :=
      match mode with
      | FileMode.ab => existing.getD []
      | FileMode.wb => []
    { rangeHeader := rangeHeader, mode := mode,
      fileAfter := some (base ++ (resp.chunks.filter (fun c => !c.isEmpty)).flatten),
      output := ["\n" ++ filename ++ " downloaded successfully."],
      totalSize := some total_size }
  else
    { rangeHeader := rangeHeader, mode := mode, fileAfter := existing,
      output := ["Error downloading " ++ filename ++ ", status code: " ++
        toString resp.status],
      totalSize := none }

/-! ## Main flow (`main`), from the metadata response onward -/

/-- Python `output_file if output_file else title` (argparse leaves
`output_file = None` when `-o` is not given; an empty override is falsy). -/
def chooseName (output_file : Option String) (title : Option String) :
    Option String :=
  match output_file with
  | some o => if o == "" then title else some o
  | none => title

/-- The console message `main` prints when the parsed media URL is falsy. -/
def unableMessage : String :=
  "Unable to retrieve the video URL. Ensure the video link/ID is correct and accessible."

/-- Outcome of the tail of `main` after the metadata fetch: the sanitized
filename, the media URL handed to `download_file` (if any), and the final
console message when no download is attempted. -/
structure MainResult where
  filename : String
  downloaded : Option String
  finalMessage : Option String
deriving DecidableEq

/-- Embedding of `main` from `get_video_url` onward, as a function of the
metadata response body and the `-o` override.  Returns `none` when Python
would raise: with no override and no parsed title, `sanitize_filename`
receives `None` and crashes on `None.replace` before anything is printed. -/
def mainFlow (page_content : String) (output_file : Option String) :
    Option MainResult :=
  let pi := get_video_url page_content
  match chooseName output_file pi.title with
  | none => none
  | some raw =>
    let filename := sanitize_filename raw
    if pi.video.getD "" == "" then
      some { filename := filename, downloaded := none,
             finalMessage := some unableMessage }
    else
      some { filename := filename, downloaded := pi.video,
             finalMessage := none }

/-! ## Helper lemmas: substring search -/

theorem startsWithList_refl (l : List Char) : startsWithList l l = true := by
  induction l with
  | nil => rfl
  | cons c cs ih => simp [startsWithList, ih]

theorem containsSeq_append_self (a p : List Char) : containsSeq p (a ++ p) = true := by
  induction a with
  | nil =>
    cases p with
    | nil => rfl
    | cons c cs => simp [containsSeq, startsWithList_refl]
  | cons c cs ih => simp [containsSeq, ih]

theorem strContainsSub_append_right (a b : String) :
    strContainsSub (a ++ b) b = true := by
  show containsSeq b.data (a ++ b).data = true
  rw [String.data_append]
  exact containsSeq_append_self _ _

/-! ## Helper lemmas: the parser loop -/

theorem parseStep_title_of_no_title_start (st : PlaybackInfo) (c : String)
    (h : strStartsWith c "title=" = false) : (parseStep st c).title = st.title := by
  unfold parseStep
  rw [h]
  simp only [Bool.false_and, Bool.false_eq_true, if_false]
  split <;> rfl

theorem parseStep_title_of_set (st : PlaybackInfo) (c : String)
    (h : isFalsy st.title = false) : (parseStep st c).title = st.title := by
  unfold parseStep
  rw [h]
  simp only [Bool.and_false, Bool.false_eq_true, if_false]
  split <;> rfl

theorem parseStep_video_of_no_contains (st : PlaybackInfo) (c : String)
    (h : strContainsSub c "videoplayback" = false) : (parseStep st c).video = st.video := by
  unfold parseStep
  rw [h]
  split
  · rfl
  · simp

theorem parseStep_video_of_set (st : PlaybackInfo) (c : String)
    (h : isFalsy st.video = false) : (parseStep st c).video = st.video := by
  unfold parseStep
  rw [h]
  split
  · rfl
  · simp

theorem parseLoop_title_of_set (st : PlaybackInfo) (l : List String)
    (h : isFalsy st.title = false) : (parseLoop st l).title = st.title := by
  induction l generalizing st with
  | nil => rfl
  | cons c rest ih =>
    have ht := parseStep_title_of_set st c h
    have ht2 : isFalsy (parseStep st c).title = false := by rw [ht]; exact h
    unfold parseLoop
    split
    · exact ht
    · rw [ih _ ht2, ht]

theorem parseLoop_video_of_set (st : PlaybackInfo) (l : List String)
    (h : isFalsy st.video = false) : (parseLoop st l).video = st.video := by
  induction l generalizing st with
  | nil => rfl
  | cons c rest ih =>
    have hv := parseStep_video_of_set st c h
    have hv2 : isFalsy (parseStep st c).video = false := by rw [hv]; exact h
    unfold parseLoop
    split
    · exact hv
    · rw [ih _ hv2, hv]

theorem parseLoop_title_first (pre : List String) (seg : String) (post : List String)
    (st : PlaybackInfo) (hst : st.title = none)
    (hpre : ∀ c ∈ pre, strStartsWith c "title=" = false)
    (hseg : strStartsWith seg "title=" = true)
    (hne : unquote (afterLastSplit '=' seg) ≠ "") :
    (parseLoop st (pre ++ seg :: post)).title =
      some (unquote (afterLastSplit '=' seg)) := by
  induction pre generalizing st with
  | nil =>
    have hfal : isFalsy st.title = true := by rw [hst]; rfl
    have hstep : (parseStep st seg).title = some (unquote (afterLastSplit '=' seg)) := by
      unfold parseStep
      rw [hseg, hfal]
      rfl
    have hset : isFalsy (parseStep st seg).title = false := by
      rw [hstep]
      simp [isFalsy, hne]
    simp only [List.nil_append]
    unfold parseLoop
    split
    · exact hstep
    · rw [parseLoop_title_of_set _ _ hset, hstep]
  | cons c pre ih =>
    have hc : strStartsWith c "title=" = false := hpre c (by simp)
    have ht : (parseStep st c).title = st.title :=
      parseStep_title_of_no_title_start st c hc
    have hfal : isFalsy (parseStep st c).title = true := by
      rw [ht, hst]; rfl
    simp only [List.cons_append]
    unfold parseLoop
    split
    · next hb =>
      rw [hfal] at hb
      simp at hb
    · exact ih (parseStep st c) (ht.trans hst) (fun d hd => hpre d (by simp [hd]))

theorem parseLoop_video_first (pre : List String) (seg : String) (post : List String)
    (st : PlaybackInfo) (hst : st.video = none)
    (hpre : ∀ c ∈ pre, strContainsSub c "videoplayback" = false)
    (hseg : strContainsSub seg "videoplayback" = true)
    (hnt : strStartsWith seg "title=" = false)
    (hne : afterLastSplit '|' (unquote seg) ≠ "") :
    (parseLoop st (pre ++ seg :: post)).video =
      some (afterLastSplit '|' (unquote seg)) := by
  induction pre generalizing st with
  | nil =>
    have hfal : isFalsy st.video = true := by rw [hst]; rfl
    have hstep : (parseStep st seg).video = some (afterLastSplit '|' (unquote seg)) := by
      unfold parseStep
      rw [hnt, hseg, hfal]
      rfl
    have hset : isFalsy (parseStep st seg).video = false := by
      rw [hstep]
      simp [isFalsy, hne]
    simp only [List.nil_append]
    unfold parseLoop
    split
    · exact hstep
    · rw [parseLoop_video_of_set _ _ hset, hstep]
  | cons c pre ih =>
    have hc : strContainsSub c "videoplayback" = false := hpre c (by simp)
    have hv : (parseStep st c).video = st.video :=
      parseStep_video_of_no_contains st c hc
    have hfal : isFalsy (parseStep st c).video = true := by
      rw [hv, hst]; rfl
    simp only [List.cons_append]
    unfold parseLoop
    split
    · next hb =>
      rw [hfal] at hb
      simp at hb
    · exact ih (parseStep st c) (hv.trans hst) (fun d hd => hpre d (by simp [hd]))

/-! ## Helper lemmas: stripping and the sanitizer -/

theorem dropWhile_head?_false {α : Type} (p : α → Bool) (l : List α) (x : α)
    (h : (l.dropWhile p).head? = some x) : p x = false := by
  induction l with
  | nil => simp at h
  | cons c rest ih =>
    by_cases hc : p c = true
    · rw [List.dropWhile_cons_of_pos hc] at h
      exact ih h
    · rw [List.dropWhile_cons_of_neg hc] at h
      obtain rfl : c = x := by simpa using h
      exact Bool.eq_false_iff.mpr hc

theorem dropWhile_eq_self_of_head {α : Type} (p : α → Bool) (l : List α)
    (h : ∀ x, l.head? = some x → p x = false) : l.dropWhile p = l := by
  cases l with
  | nil => rfl
  | cons c rest =>
    have hc := h c rfl
    exact List.dropWhile_cons_of_neg (by simp [hc])

theorem pyStripList_subset (l : List Char) : ∀ c ∈ pyStripList l, c ∈ l := by
  intro c hc
  unfold pyStripList at hc
  rw [List.mem_reverse] at hc
  have h1 : c ∈ (l.dropWhile isPySpace).reverse :=
    (List.dropWhile_suffix isPySpace).subset hc
  rw [List.mem_reverse] at h1
  exact (List.dropWhile_suffix isPySpace).subset h1

theorem pyStripList_head?_false (l : List Char) (x : Char)
    (h : (pyStripList l).head? = some x) : isPySpace x = false := by
  obtain ⟨t, ht⟩ :=
    List.dropWhile_suffix (l := (l.dropWhile isPySpace).reverse) isPySpace
  have ha : l.dropWhile isPySpace =
      ((l.dropWhile isPySpace).reverse.dropWhile isPySpace).reverse ++ t.reverse := by
    have h2 := congrArg List.reverse ht
    simpa [List.reverse_append] using h2.symm
  have hh : (l.dropWhile isPySpace).head? = some x := by
    rw [ha, List.head?_append]
    unfold pyStripList at h
    rw [h]
    rfl
  exact dropWhile_head?_false _ _ _ hh

theorem pyStripList_getLast?_false (l : List Char) (x : Char)
    (h : (pyStripList l).getLast? = some x) : isPySpace x = false := by
  unfold pyStripList at h
  rw [List.getLast?_reverse] at h
  exact dropWhile_head?_false _ _ _ h

theorem pyStripList_eq_self (l : List Char)
    (hh : ∀ x, l.head? = some x → isPySpace x = false)
    (hl : ∀ x, l.getLast? = some x → isPySpace x = false) :
    pyStripList l = l := by
  have h1 : l.dropWhile isPySpace = l := dropWhile_eq_self_of_head _ _ hh
  have h2 : l.reverse.dropWhile isPySpace = l.reverse := by
    apply dropWhile_eq_self_of_head
    intro x hx
    rw [List.head?_reverse] at hx
    exact hl x hx
  show ((l.dropWhile isPySpace).reverse.dropWhile isPySpace).reverse = l
  rw [h1, h2, List.reverse_reverse]

theorem pyStripList_fix (l : List Char) :
    pyStripList (pyStripList l) = pyStripList l :=
  pyStripList_eq_self _ (pyStripList_head?_false l) (pyStripList_getLast?_false l)

theorem cleanChar_split (c : Char) (h : cleanChar c = true) :
    (c == '+') = false ∧ invalidChar c = false ∧ 32 ≤ c.toNat := by
  unfold cleanChar at h
  simp only [Bool.and_eq_true, Bool.not_eq_true', decide_eq_true_eq] at h
  exact ⟨h.1.1, h.1.2, h.2⟩

theorem map_plus_id (l : List Char) (h : ∀ c ∈ l, (c == '+') = false) :
    l.map (fun c => if c == '+' then ' ' else c) = l := by
  induction l with
  | nil => rfl
  | cons c rest ih =>
    have hc := h c (by simp)
    simp only [List.map_cons, hc, Bool.false_eq_true, if_false]
    rw [ih (fun d hd => h d (by simp [hd]))]

theorem sanitize_clean_all_clean (s : String) :
    ∀ c ∈ (sanitize_clean s).toList, cleanChar c = true := by
  intro c hc
  have hc' : c ∈ ((s.toList.map fun c => if c == '+' then ' ' else c).filter
      (fun c => !invalidChar c)).filter (fun c => decide (32 ≤ c.toNat)) :=
    pyStripList_subset _ c hc
  rw [List.mem_filter] at hc'
  obtain ⟨hc2, h32⟩ := hc'
  rw [List.mem_filter] at hc2
  obtain ⟨hc1, hinv⟩ := hc2
  rw [List.mem_map] at hc1
  obtain ⟨d, _, hd⟩ := hc1
  have hplus : (c == '+') = false := by
    cases hdp : (d == '+') with
    | false =>
      rw [hdp] at hd
      simp at hd
      rw [← hd]
      exact hdp
    | true =>
      rw [hdp] at hd
      simp at hd
      rw [← hd]
      decide
  unfold cleanChar
  rw [hplus, hinv, h32]
  rfl

theorem sanitize_clean_of_clean (s : String)
    (h : ∀ c ∈ s.toList, cleanChar c = true) :
    sanitize_clean s = String.mk (pyStripList s.toList) := by
  simp only [sanitize_clean]
  rw [map_plus_id _ (fun c hc => (cleanChar_split c (h c hc)).1)]
  rw [List.filter_eq_self.mpr (fun c hc => by
    have hcs : c ∈ s.toList := (List.mem_filter.mp hc).1
    exact decide_eq_true (cleanChar_split c (h c hcs)).2.2)]
  rw [List.filter_eq_self.mpr (fun c hc => by
    simp [(cleanChar_split c (h c hc)).2.1])]

theorem pyStrip_sanitize_clean (s : String) :
    String.mk (pyStripList (sanitize_clean s).toList) = sanitize_clean s := by
  show String.mk (pyStripList (pyStripList
    (((s.toList.map (fun c => if c == '+' then ' ' else c)).filter
      (fun c => !invalidChar c)).filter (fun c => decide (32 ≤ c.toNat))))) = _
  rw [pyStripList_fix]
  rfl

theorem invalidChar_no_slash (c : Char) (h : invalidChar c = false) :
    (c == '/') = false := by
  by_cases hc : (c == '/') = true
  · obtain rfl : c = '/' := by simpa using hc
    simp [invalidChar] at h
  · exact Bool.eq_false_iff.mpr hc

theorem hasExtension_no_slash (s : String)
    (h : ∀ c ∈ s.toList, (c == '/') = false) :
    hasExtension s = ((s.toList.dropWhile (fun c => c == '.')).contains '.') := by
  unfold hasExtension
  rw [List.takeWhile_eq_self_iff.mpr (fun c hc => by
    rw [List.mem_reverse] at hc
    simpa using h c hc)]
  rw [List.reverse_reverse]

/-! ## Claim theorems -/

/-- C2, counterexample to the claim as stated.  In the body
`title=videoplayback|A&videoplayback|B` the first `&`-segment containing the
substring `videoplayback` is `title=videoplayback|A`, whose decoded
after-last-`|` part is `A`; the claim therefore prescribes media URL `A`,
but the code consumes that segment for the title (it starts with `title=`
and the title is still unset, so the `elif` is never reached) and records
`B` from the second segment instead. -/
theorem c2_counterexample :
    pySplit '&' "title=videoplayback|A&videoplayback|B" =
      ["title=videoplayback|A", "videoplayback|B"] ∧
    strContainsSub "title=videoplayback|A" "videoplayback" = true ∧
    afterLastSplit '|' (unquote "title=videoplayback|A") = "A" ∧
    (get_video_url "title=videoplayback|A&videoplayback|B").video = some "B" ∧
    some "B" ≠ some "A" := by
  refine ⟨by decide, by decide, by decide, by decide, by decide⟩

/-- C3, counterexample to the claim as stated.  For the body `title=a=b` the
first (only) segment starts with `title=`; everything after the FIRST `=`
is `a=b`, but the code takes `content.split('=')[-1]`, everything after the
LAST `=`, and records `b`. -/
theorem c3_counterexample :
    pySplit '&' "title=a=b" = ["title=a=b"] ∧
    strStartsWith "title=a=b" "title=" = true ∧
    unquote "a=b" = "a=b" ∧
    (get_video_url "title=a=b").title = some "b" ∧
    some "b" ≠ some "a=b" := by
  refine ⟨by decide, by decide, by decide, by decide, by decide⟩

/-- C3 (amended): on the first `&`-segment that starts with `title=`, the
parser records as the title the URL-decoding of everything after the LAST
`=` in that segment, provided that decoded value is nonempty (an empty
decoded value counts as unset and may be replaced by a later `title=`
segment). -/
theorem c3_title_after_last_eq (pc : String) (pre post : List String)
    (seg : String)
    (hsplit : pySplit '&' pc = pre ++ seg :: post)
    (hpre : ∀ c ∈ pre, strStartsWith c "title=" = false)
    (hseg : strStartsWith seg "title=" = true)
    (hne : unquote (afterLastSplit '=' seg) ≠ "") :
    (get_video_url pc).title = some (unquote (afterLastSplit '=' seg)) := by
  unfold get_video_url
  rw [hsplit]
  exact parseLoop_title_first pre seg post ⟨none, none⟩ rfl hpre hseg hne

/-- Witness for `c3_title_after_last_eq` at the body `x&title=abc`. -/
theorem c3_witness :
    (get_video_url "x&title=abc").title = some "abc" := by
  have h := c3_title_after_last_eq "x&title=abc" ["x"] [] "title=abc"
    (by decide) (by decide) (by decide) (by decide)
  rw [h]
  decide

/-- C4, counterexample to the claim as stated.  In the body
`title=&title=Z` the first segment matching the title rule is `title=`,
whose decoded value is the empty string; the claim says this first match
determines the title, yet the code, which tests Python truthiness rather
than whether the field was assigned, overwrites the empty value with `Z`
from the second matching segment. -/
theorem c4_counterexample :
    pySplit '&' "title=&title=Z" = ["title=", "title=Z"] ∧
    strStartsWith "title=" "title=" = true ∧
    unquote (afterLastSplit '=' "title=") = "" ∧
    (get_video_url "title=&title=Z").title = some "Z" ∧
    some "Z" ≠ some "" := by
  refine ⟨by decide, by decide, by decide, by decide, by decide⟩

/-- C4 (amended): a field is never overwritten once it holds a NONEMPTY
value — for any starting state and any remaining segment list, a non-falsy
title (respectively media URL) survives the rest of the scan unchanged.
(First-match-wins only holds with two qualifications shown by the
counterexamples: a field set to the empty string counts as unset, and a
segment starting with `title=` while the title is unset is consumed for the
title even if it also contains `videoplayback`.) -/
theorem c4_no_overwrite_once_nonempty (st : PlaybackInfo) (l : List String) :
    (isFalsy st.title = false → (parseLoop st l).title = st.title) ∧
    (isFalsy st.video = false → (parseLoop st l).video = st.video) :=
  ⟨parseLoop_title_of_set st l, parseLoop_video_of_set st l⟩

/-- Witness for `c4_no_overwrite_once_nonempty`: a state holding title `t`
and media URL `v` is unchanged by scanning `["title=q", "videoplayback|w"]`. -/
theorem c4_witness :
    (parseLoop ⟨some "v", some "t"⟩ ["title=q", "videoplayback|w"]).title = some "t" ∧
    (parseLoop ⟨some "v", some "t"⟩ ["title=q", "videoplayback|w"]).video = some "v" :=
  ⟨(c4_no_overwrite_once_nonempty ⟨some "v", some "t"⟩
      ["title=q", "videoplayback|w"]).1 (by decide),
   (c4_no_overwrite_once_nonempty ⟨some "v", some "t"⟩
      ["title=q", "videoplayback|w"]).2 (by decide)⟩

theorem sanitize_clean_head?_false (s : String) (x : Char)
    (h : (sanitize_clean s).toList.head? = some x) : isPySpace x = false :=
  pyStripList_head?_false _ x h

/-- C6: the sanitizer's staged cleanup (replace `+`, strip the invalid
class, strip control characters, trim) agrees with the spec-side single-pass
description, and the two concrete examples of the claim hold: `My+Video`
becomes `My Video.mp4`, and a name containing `<>:"/\|?*` loses exactly
those characters. -/
theorem c6_sanitize_matches_spec_pipeline (s : String) :
    sanitize_clean s = sanitizeSpecClean s ∧
    sanitize_filename "My+Video" = "My Video.mp4" ∧
    sanitize_filename "a<b>c:d\"e/f\\g|h?i*j" = "abcdefghij.mp4" := by
  refine ⟨?_, by decide, by decide⟩
  simp only [sanitize_clean, sanitizeSpecClean]
  rw [List.filter_filter]
  simp [Bool.and_comm]

/-- C7, counterexample to the claim as stated.  The cleaned name `foo.` has
no `.` followed by characters (its only dot is final), so the claim demands
that `.mp4` be appended; but `os.path.splitext("foo.")` returns the nonempty
extension `"."`, so the code appends nothing and returns `foo.` as is. -/
theorem c7_counterexample :
    sanitize_clean "foo." = "foo." ∧
    ("foo.".toList.dropLast.contains '.') = false ∧
    sanitize_filename "foo." = "foo." ∧
    ("foo." : String) ≠ "foo." ++ ".mp4" := by
  refine ⟨by decide, by decide, by decide, by decide⟩

/-- C7 (amended): `.mp4` is appended if and only if `os.path.splitext`
reports an empty extension on the cleaned name, i.e. iff the final path
segment of the cleaned name, after dropping leading dots, contains no
further `.`; a trailing bare `.` preceded by a non-dot character counts as
an extension and suppresses the append. -/
theorem c7_extension_appended_iff_splitext_empty (s : String) :
    (sanitize_filename s = sanitize_clean s ++ ".mp4" ↔
      hasExtension (sanitize_clean s) = false) ∧
    (hasExtension (sanitize_clean s) = true →
      sanitize_filename s = sanitize_clean s) := by
  have hlen : (".mp4" : String).length = 4 := by decide
  constructor
  · constructor
    · intro h
      cases hx : hasExtension (sanitize_clean s) with
      | false => rfl
      | true =>
        have h2 : sanitize_filename s = sanitize_clean s := by
          simp only [sanitize_filename]
          rw [hx]
          simp
        rw [h2] at h
        have h3 := congrArg String.length h
        rw [String.length_append, hlen] at h3
        omega
    · intro h
      simp only [sanitize_filename]
      rw [h]
      simp
  · intro h
    simp only [sanitize_filename]
    rw [h]
    simp

/-- Witness for `c7_extension_appended_iff_splitext_empty` at the inputs
`My+Video` (no extension, appended) and `a.txt` (extension, untouched). -/
theorem c7_witness :
    sanitize_filename "My+Video" = sanitize_clean "My+Video" ++ ".mp4" ∧
    sanitize_filename "a.txt" = sanitize_clean "a.txt" := by
  constructor
  · exact (c7_extension_appended_iff_splitext_empty "My+Video").1.mpr (by decide)
  · exact (c7_extension_appended_iff_splitext_empty "a.txt").2 (by decide)

/-- C10, counterexample to the claim as stated.  `sanitize_filename` is not
idempotent: the empty name is cleaned to the empty string, which gets
`.mp4` appended; re-sanitizing `.mp4` appends `.mp4` again, because
`os.path.splitext(".mp4")` treats the leading-dot name as having no
extension. -/
theorem c10_counterexample :
    sanitize_filename "" = ".mp4" ∧
    sanitize_filename (sanitize_filename "") = ".mp4.mp4" ∧
    (".mp4.mp4" : String) ≠ ".mp4" := by
  refine ⟨by decide, by decide, by decide⟩

/-- C10 (amended): `sanitize_filename` is idempotent on every input whose
cleaned name contains at least one non-dot character; only names that clean
to a (possibly empty) run of dots gain an extra `.mp4` on re-sanitizing. -/
theorem c10_idempotent_on_nondot_names (s : String)
    (h : (sanitize_clean s).toList.any (fun c => !(c == '.')) = true) :
    sanitize_filename (sanitize_filename s) = sanitize_filename s := by
  have hfix : sanitize_clean (sanitize_clean s) = sanitize_clean s :=
    (sanitize_clean_of_clean _ (sanitize_clean_all_clean s)).trans
      (pyStrip_sanitize_clean s)
  by_cases he : hasExtension (sanitize_clean s) = true
  · have ho : sanitize_filename s = sanitize_clean s := by
      simp only [sanitize_filename]
      rw [he]
      simp
    rw [ho]
    simp only [sanitize_filename]
    rw [hfix, he]
    simp
  · have he' : hasExtension (sanitize_clean s) = false := Bool.eq_false_iff.mpr he
    have ho : sanitize_filename s = sanitize_clean s ++ ".mp4" := by
      simp only [sanitize_filename]
      rw [he']
      simp
    rw [ho]
    have hdata : (sanitize_clean s ++ ".mp4").toList =
        (sanitize_clean s).toList ++ ".mp4".toList :=
      String.data_append (sanitize_clean s) ".mp4"
    have hoall : ∀ c ∈ (sanitize_clean s ++ ".mp4").toList, cleanChar c = true := by
      intro c hc
      rw [hdata, List.mem_append] at hc
      rcases hc with hc | hc
      · exact sanitize_clean_all_clean s c hc
      · have hm : ∀ c ∈ ".mp4".toList, cleanChar c = true := by decide
        exact hm c hc
    have hstrip : pyStripList ((sanitize_clean s).toList ++ ".mp4".toList) =
        (sanitize_clean s).toList ++ ".mp4".toList := by
      apply pyStripList_eq_self
      · intro x hx
        cases htl : (sanitize_clean s).toList with
        | nil =>
          rw [htl, List.nil_append] at hx
          have h4 : (".mp4".toList).head? = some '.' := by decide
          rw [h4] at hx
          obtain rfl : '.' = x := by simpa using hx
          decide
        | cons a as =>
          rw [htl] at hx
          simp only [List.cons_append, List.head?_cons] at hx
          obtain rfl : a = x := by simpa using hx
          exact sanitize_clean_head?_false s a (by rw [htl]; rfl)
      · intro x hx
        rw [List.getLast?_append_of_ne_nil _ (by decide)] at hx
        have h4 : (".mp4".toList).getLast? = some '4' := by decide
        rw [h4] at hx
        obtain rfl : '4' = x := by simpa using hx
        decide
    have hco : sanitize_clean (sanitize_clean s ++ ".mp4") =
        sanitize_clean s ++ ".mp4" := by
      rw [sanitize_clean_of_clean _ hoall, hdata, hstrip, ← hdata]
      rfl
    have hnoslash : ∀ c ∈ (sanitize_clean s ++ ".mp4").toList, (c == '/') = false :=
      fun c hc => invalidChar_no_slash c (cleanChar_split c (hoall c hc)).2.1
    have hdw : ((sanitize_clean s).toList.dropWhile (fun c => c == '.')).isEmpty
        = false := by
      cases hdw' : ((sanitize_clean s).toList.dropWhile (fun c => c == '.')) with
      | nil =>
        rw [List.dropWhile_eq_nil_iff] at hdw'
        rw [List.any_eq_true] at h
        obtain ⟨x, hx, hxd⟩ := h
        have := hdw' x hx
        rw [this] at hxd
        simp at hxd
      | cons b bs => rfl
    have hext : hasExtension (sanitize_clean s ++ ".mp4") = true := by
      rw [hasExtension_no_slash _ hnoslash, hdata, List.dropWhile_append, hdw]
      simp only [Bool.false_eq_true, if_false]
      exact List.elem_iff.mpr (List.mem_append_right _ (by decide))
    simp only [sanitize_filename]
    rw [hco, hext]
    simp

/-- Witness for `c10_idempotent_on_nondot_names` at `My+Video`. -/
theorem c10_witness :
    ((sanitize_clean "My+Video").toList.any (fun c => !(c == '.')) = true) ∧
    sanitize_filename (sanitize_filename "My+Video") =
      sanitize_filename "My+Video" :=
  ⟨by decide, c10_idempotent_on_nondot_names "My+Video" (by decide)⟩

/-- C1: when the media-GET status is neither 200 nor 206, the local file is
never opened — its contents (and hence size) are exactly what they were —
and the only console output is an error line that contains the status
code. -/
theorem c1_error_status_writes_nothing (existing : Option (List Nat))
    (resp : HttpResponse) (fn : String) (cs : Nat)
    (h200 : resp.status ≠ 200) (h206 : resp.status ≠ 206) :
    (download_file existing resp fn cs).fileAfter = existing ∧
    (download_file existing resp fn cs).output =
      ["Error downloading " ++ fn ++ ", status code: " ++ toString resp.status] ∧
    strContainsSub ("Error downloading " ++ fn ++ ", status code: " ++
      toString resp.status) (toString resp.status) = true := by
  have hcond : (resp.status == 200 || resp.status == 206) = false := by
    simp only [Bool.or_eq_false_iff, beq_eq_false_iff_ne, ne_eq]
    exact ⟨h200, h206⟩
  simp only [download_file, hcond, Bool.false_eq_true, if_false]
  exact ⟨trivial, trivial, strContainsSub_append_right _ _⟩

/-- Witness for `c1_error_status_writes_nothing` at a 404 response against
an existing two-byte file. -/
theorem c1_witness :
    (download_file (some [1, 2]) ⟨404, 5, [[7]]⟩ "f" 1).fileAfter = some [1, 2] ∧
    (download_file (some [1, 2]) ⟨404, 5, [[7]]⟩ "f" 1).output =
      ["Error downloading " ++ "f" ++ ", status code: " ++ toString (404 : Nat)] ∧
    strContainsSub ("Error downloading " ++ "f" ++ ", status code: " ++
      toString (404 : Nat)) (toString (404 : Nat)) = true :=
  c1_error_status_writes_nothing (some [1, 2]) ⟨404, 5, [[7]]⟩ "f" 1
    (by decide) (by decide)

/-- C8, counterexample to the claim as stated.  For an existing EMPTY local
file the resume offset is 0, yet the code keys on `os.path.exists`, not on
the size: it sends `Range: bytes=0-` (the claim says no range header when
the size is zero) and opens the file in append mode rather than
truncating. -/
theorem c8_counterexample :
    (download_file (some []) ⟨200, 3, [[1]]⟩ "f" 1).rangeHeader =
      some "bytes=0-" ∧
    (download_file (some []) ⟨200, 3, [[1]]⟩ "f" 1).mode = FileMode.ab ∧
    ((some ([] : List Nat)).getD []).length = 0 ∧
    some "bytes=0-" ≠ (none : Option String) ∧
    FileMode.ab ≠ FileMode.wb := by
  refine ⟨by decide, by decide, by decide, by decide, by decide⟩

/-- C8 (amended): the downloader reads the existing file's size when it
starts (0 when the file is missing) and sends `Range: bytes=<size>-` if and
only if the file EXISTS — even when its size is 0 — opening in append mode
exactly then, and truncating exactly when the file does not exist. -/
theorem c8_range_header_iff_file_exists (existing : Option (List Nat))
    (resp : HttpResponse) (fn : String) (cs : Nat) :
    (download_file existing resp fn cs).rangeHeader =
      (if existing.isSome then
        some ("bytes=" ++ toString (existing.getD []).length ++ "-")
      else none) ∧
    (download_file existing resp fn cs).mode =
      (if existing.isSome then FileMode.ab else FileMode.wb) ∧
    ((download_file existing resp fn cs).mode = FileMode.wb ↔ existing = none) := by
  cases existing with
  | none =>
    simp only [download_file]
    split <;> simp
  | some bs =>
    simp only [download_file]
    split <;> simp

/-- C9, counterexample to the claim as stated.  For an empty metadata body
the parser finds neither a media URL nor a title; with no `-o` override,
`main` passes `None` into `sanitize_filename`, which raises before the
"Unable to retrieve the video URL" message can be printed. -/
theorem c9_counterexample :
    (get_video_url "").video = none ∧ mainFlow "" none = none := by
  refine ⟨by decide, by decide⟩

/-- C9 (amended): whenever the parser finds no media URL AND a filename can
be derived (a truthy `-o` override or a parsed title exists), `main` prints
the "Unable to retrieve the video URL…" message and downloads nothing;
without a derivable filename the run dies in the sanitizer instead. -/
theorem c9_no_url_message_when_name_available (pc : String) (of : Option String)
    (hv : (get_video_url pc).video = none)
    (hn : chooseName of (get_video_url pc).title ≠ none) :
    ∃ r, mainFlow pc of = some r ∧ r.downloaded = none ∧
      r.finalMessage = some unableMessage := by
  simp only [mainFlow]
  cases hc : chooseName of (get_video_url pc).title with
  | none => exact absurd hc hn
  | some raw =>
    rw [hv]
    exact ⟨_, rfl, rfl, rfl⟩

/-- Witness for `c9_no_url_message_when_name_available` at the body `foo`
with override `out`. -/
theorem c9_witness :
    ∃ r, mainFlow "foo" (some "out") = some r ∧ r.downloaded = none ∧
      r.finalMessage = some unableMessage :=
  c9_no_url_message_when_name_available "foo" (some "out") (by decide) (by decide)

/-! ## Helper lemmas: video-scan refinement and URL parsing -/

theorem parseLoop_video_refines (l : List String) : ∀ st : PlaybackInfo,
    isFalsy st.video = true →
    (parseLoop st l).video.getD "" = (firstVideoUrl (!isFalsy st.title) l).getD "" := by
  induction l with
  | nil =>
    intro st hv
    show st.video.getD "" = (none : Option String).getD ""
    simpa [isFalsy] using hv
  | cons c rest ih =>
    intro st hv
    by_cases hA : (strStartsWith c "title=" && isFalsy st.title) = true
    · obtain ⟨hA1, hA2⟩ := Bool.and_eq_true_iff.mp hA
      have hstep : parseStep st c =
          { st with title := some (unquote (afterLastSplit '=' c)) } := by
        unfold parseStep
        rw [if_pos hA]
      have hv2 : isFalsy (parseStep st c).video = true := by rw [hstep]; exact hv
      have hnb : (!isFalsy (parseStep st c).video &&
          !isFalsy (parseStep st c).title) = false := by
        rw [hv2]; rfl
      unfold parseLoop
      rw [hnb]
      simp only [Bool.false_eq_true, if_false]
      rw [ih (parseStep st c) hv2]
      have hbt : (!isFalsy (parseStep st c).title) =
          (unquote (afterLastSplit '=' c) != "") := by
        rw [hstep]
        rfl
      have hrhs : firstVideoUrl (!isFalsy st.title) (c :: rest) =
          firstVideoUrl (unquote (afterLastSplit '=' c) != "") rest := by
        simp only [firstVideoUrl, hA1, hA2]
        simp
      rw [hbt, hrhs]
    · have hAf : (strStartsWith c "title=" && isFalsy st.title) = false :=
        Bool.eq_false_iff.mpr hA
      have hstep0 : parseStep st c =
          if strContainsSub c "videoplayback" && isFalsy st.video then
            { st with video := some (afterLastSplit '|' (unquote c)) }
          else st := by
        unfold parseStep
        rw [if_neg hA]
      by_cases hB : strContainsSub c "videoplayback" = true
      · have hBc : (strContainsSub c "videoplayback" && isFalsy st.video) = true := by
          rw [hB, hv]; rfl
        have hstep : parseStep st c =
            { st with video := some (afterLastSplit '|' (unquote c)) } := by
          rw [hstep0, if_pos hBc]
        by_cases hne : (afterLastSplit '|' (unquote c)) = ""
        · have hv2 : isFalsy (parseStep st c).video = true := by
            rw [hstep]
            simp [isFalsy, hne]
          have htitle2 : (parseStep st c).title = st.title := by rw [hstep]
          have hnb : (!isFalsy (parseStep st c).video &&
              !isFalsy (parseStep st c).title) = false := by
            rw [hv2]; rfl
          unfold parseLoop
          rw [hnb]
          simp only [Bool.false_eq_true, if_false]
          rw [ih _ hv2, htitle2]
          have hrhs : firstVideoUrl (!isFalsy st.title) (c :: rest) =
              firstVideoUrl (!isFalsy st.title) rest := by
            simp only [firstVideoUrl, Bool.not_not, hAf, hne]
            simp
          rw [hrhs]
        · have hfv : isFalsy (parseStep st c).video = false := by
            rw [hstep]
            simp [isFalsy, hne]
          have hvid : (parseStep st c).video =
              some (afterLastSplit '|' (unquote c)) := by rw [hstep]
          have hres : (parseLoop st (c :: rest)).video =
              some (afterLastSplit '|' (unquote c)) := by
            unfold parseLoop
            split
            · exact hvid
            · rw [parseLoop_video_of_set _ _ hfv, hvid]
          rw [hres]
          have hrhs : firstVideoUrl (!isFalsy st.title) (c :: rest) =
              some (afterLastSplit '|' (unquote c)) := by
            simp only [firstVideoUrl, Bool.not_not, hAf, hB]
            simp [hne]
          rw [hrhs]
      · have hBf : strContainsSub c "videoplayback" = false :=
          Bool.eq_false_iff.mpr hB
        have hstep : parseStep st c = st := by
          rw [hstep0, hBf]
          simp
        have hnb : (!isFalsy (parseStep st c).video &&
            !isFalsy (parseStep st c).title) = false := by
          rw [hstep, hv]; rfl
        unfold parseLoop
        rw [hnb]
        simp only [Bool.false_eq_true, if_false]
        rw [hstep, ih st hv]
        have hrhs : firstVideoUrl (!isFalsy st.title) (c :: rest) =
            firstVideoUrl (!isFalsy st.title) rest := by
          simp only [firstVideoUrl, Bool.not_not, hAf, hBf]
          simp
        rw [hrhs]

/-- C2 (amended): the parser splits the body on `&` and scans left to right
with state.  A segment starting with `title=` while no nonempty title has
been captured is consumed by the title rule even if it contains
`videoplayback`; otherwise the first segment containing `videoplayback`
whose URL-decoded after-last-`|` part is nonempty sets the media URL (an
empty extracted value counts as unset and scanning continues); once the
title is nonempty, a later `title=`-prefixed segment containing
`videoplayback` feeds the media URL.  Read through Python truthiness, the
final media URL equals the result of this scan (`firstVideoUrl`), and the
claim's concrete example plus both boundary bodies evaluate as stated. -/
theorem c2_video_refines_spec_scan (pc : String) :
    (get_video_url pc).video.getD "" =
      (firstVideoUrl false (pySplit '&' pc)).getD "" ∧
    get_video_url "title=My%2BVideo&foo=bar&videoplayback|https://cdn/x.mp4" =
      ⟨some "https://cdn/x.mp4", some "My+Video"⟩ ∧
    (get_video_url "title=videoplayback|A&videoplayback|B").video = some "B" ∧
    (get_video_url "title=T&title=videoplayback|A").video = some "A" := by
  refine ⟨?_, by decide, by decide, by decide⟩
  exact parseLoop_video_refines (pySplit '&' pc) ⟨none, none⟩ rfl

